import Mathlib

/-!
Verification of the proof-of-location repository.

This file gives a shallow embedding, in Lean 4, of the parts of the
repository relevant to the frozen claims:

* `trimmed_median_error` (trust-score/src/score.rs and
  pallets/proof-of-location/src/util.rs, identical bodies),
* `calculate_median` and the sliding RSSI window of the scanning engine
  (server/src/bluetooth.rs),
* the path-loss estimator `estimate_rssi` (pallets/proof-of-location/src/util.rs),
* the SCALE wire codec used between the sensing server (server/src/main.rs)
  and the offchain worker (pallets/proof-of-location/src/offchain_worker.rs),
* the per-event handling of the scanning engine's discovery loop
  (`scan_devices` in server/src/bluetooth.rs),
* the NodeUpdated branch of the neighbor-set maintainer (server/src/neighbor.rs),
* the registry dispatchables `register_node`, `update_node_info`,
  `unregister_node` (pallets/proof-of-location/src/pallet_calls.rs).

Machine integers are modelled as `Int` with explicit two's-complement wrapping
where the Rust code can overflow (release-mode semantics of `i16`), byte
strings as `List Nat` (each entry one byte), and fallible operations as
`Option`/`Except`.
-/

/- ### i16 arithmetic (Rust release-mode semantics) -/

/-- Two's-complement wrap of an unbounded integer into the signed 16-bit range
`[-32768, 32767]`. This is what Rust `i16` arithmetic computes in release mode
when an operation overflows. -/
def wrapI16 (x : Int) : Int :=
  (x + 32768) % 65536 - 32768

/-- Rust `i16::abs` in release mode: the mathematical absolute value, except
that `(-32768).abs()` overflows back to `-32768`. -/
def absI16 (x : Int) : Int :=
  wrapI16 |x|

theorem wrapI16_eq_self {x : Int} (h1 : -32768 ≤ x) (h2 : x ≤ 32767) :
    wrapI16 x = x := by
  unfold wrapI16
  rw [Int.emod_eq_of_lt (by omega) (by omega)]
  omega

theorem absI16_eq_abs {x : Int} (h1 : -32768 < x) (h2 : x ≤ 32767) :
    absI16 x = |x| := by
  unfold absI16
  exact wrapI16_eq_self (le_trans (by omega) (abs_nonneg x)) (by rw [abs_le]; omega)

/- ### Sorting -/

/-- Ascending `sort_unstable` on integers. Any correct sorting algorithm
produces the same list (the unique sorted permutation of the input under the
total order on `Int`), so `sort_unstable` is modelled by insertion sort. -/
def sortAsc (l : List Int) : List Int :=
  l.insertionSort (· ≤ ·)

theorem sortAsc_sorted (l : List Int) : List.Sorted (· ≤ ·) (sortAsc l) :=
  List.sorted_insertionSort _ _

theorem sortAsc_perm (l : List Int) : List.Perm (sortAsc l) l :=
  List.perm_insertionSort _ _

/-- A sorted permutation of `l` is exactly `sortAsc l`: the sorted order of a
list of integers is unique. This is what makes modelling `sort_unstable` by
insertion sort faithful. -/
theorem sortAsc_unique {l s : List Int} (hs : List.Sorted (· ≤ ·) s)
    (hp : List.Perm s l) : s = sortAsc l :=
  List.eq_of_perm_of_sorted (hp.trans (sortAsc_perm l).symm) hs (sortAsc_sorted l)

/- ### trimmed_median_error -/

/-- `trimmed_median_error` from trust-score/src/score.rs lines 15-34 and
pallets/proof-of-location/src/util.rs lines 44-64 (the two bodies are
identical).  Fewer than 4 samples return the sentinel `i16::MAX = 32767`;
otherwise each element is replaced by its (i16) absolute value, the slice is
sorted ascending, the first `len * 3 / 4` elements are kept, and the median of
that prefix is returned.  `trimmed[i]` is modelled by `getD _ i 0`; all indices
used are in bounds.  The sum `mid_upper + mid_lower` is i16 addition, hence
wrapped; `/ 2` is Rust signed division (truncation toward zero, `Int.tdiv`). -/
def trimmed_median_error (values : List Int) : Int :=
  if values.length < 4 then 32767
  else
    let sorted := sortAsc (values.map absI16)
    let len := values.length
    let trim_end := len * 3 / 4
    let trimmed := sorted.take trim_end
    if trim_end % 2 = 1 then
      trimmed.getD (trim_end / 2) 0
    else
      let mid_upper := trimmed.getD (trim_end / 2) 0
      let mid_lower := trimmed.getD (trim_end / 2 - 1) 0
      Int.tdiv (wrapI16 (mid_upper + mid_lower)) 2

/-- The contents of the argument slice after `trimmed_median_error` returns:
the function's only side effect is the in-place `abs` rewrite followed by the
in-place sort, and for fewer than 4 samples it returns before touching the
slice. -/
def trimmed_median_error_final (values : List Int) : List Int :=
  if values.length < 4 then values
  else sortAsc (values.map absI16)

/- ### Spec-side description of the trimmed median -/

/-- Spec wording: the ascending sort of the samples' (mathematical) absolute
values. -/
def sortedAbsSpec (values : List Int) : List Int :=
  sortAsc (values.map (fun x => |x|))

/-- Spec wording: the kept prefix, the first `floor(length * 3/4)` elements of
the ascending sort of the absolute values. -/
def keptSpec (values : List Int) : List Int :=
  (sortedAbsSpec values).take (values.length * 3 / 4)

/-- Spec wording: the median of the kept prefix — its single central element
when its length is odd, the truncating integer average of its two central
elements when it is even.  Plain integer arithmetic, no wrapping. -/
def median_of_kept_spec (values : List Int) : Int :=
  let n := values.length * 3 / 4
  if n % 2 = 1 then (keptSpec values).getD (n / 2) 0
  else Int.tdiv ((keptSpec values).getD (n / 2) 0 + (keptSpec values).getD (n / 2 - 1) 0) 2

example : trimmed_median_error [-10, 20, -5, 100] = 10 := by decide

example : median_of_kept_spec [-10, 20, -5, 100] = 10 := by decide

/- ### Helper lemmas about the sorted absolute-value list -/

theorem mem_sortAsc {l : List Int} {y : Int} : y ∈ sortAsc l ↔ y ∈ l :=
  (sortAsc_perm l).mem_iff

theorem length_sortAsc (l : List Int) : (sortAsc l).length = l.length :=
  List.length_insertionSort _ _

theorem getD_nonneg_of_forall {l : List Int} (h : ∀ y ∈ l, 0 ≤ y) (i : Nat) :
    0 ≤ l.getD i 0 := by
  by_cases hi : i < l.length
  · rw [List.getD_eq_getElem l 0 hi]
    exact h _ (List.getElem_mem hi)
  · rw [List.getD_eq_default l 0 (by omega)]

theorem getD_le_of_forall {l : List Int} {B : Int} (hB : 0 ≤ B)
    (h : ∀ y ∈ l, y ≤ B) (i : Nat) : l.getD i 0 ≤ B := by
  by_cases hi : i < l.length
  · rw [List.getD_eq_getElem l 0 hi]
    exact h _ (List.getElem_mem hi)
  · rw [List.getD_eq_default l 0 (by omega)]
    exact hB

theorem mem_sortedAbsSpec {values : List Int} {y : Int}
    (hy : y ∈ sortedAbsSpec values) : ∃ x ∈ values, y = |x| := by
  have := mem_sortAsc.mp hy
  simpa [eq_comm] using List.mem_map.mp this

theorem sortedAbsSpec_nonneg {values : List Int} :
    ∀ y ∈ sortedAbsSpec values, 0 ≤ y := by
  intro y hy
  obtain ⟨x, _, rfl⟩ := mem_sortedAbsSpec hy
  exact abs_nonneg x

theorem keptSpec_nonneg {values : List Int} :
    ∀ y ∈ keptSpec values, 0 ≤ y := fun y hy =>
  sortedAbsSpec_nonneg y (List.take_subset _ _ hy)

theorem map_absI16_eq_map_abs {values : List Int}
    (h : ∀ x ∈ values, -32768 < x ∧ x ≤ 32767) :
    values.map absI16 = values.map (fun x => |x|) :=
  List.map_congr_left fun x hx => absI16_eq_abs (h x hx).1 (h x hx).2

/-- Core equivalence: on inputs whose elements are strictly above `i16::MIN`
(so that `abs` does not overflow) and whose two central kept absolute values,
in the even case, sum within i16 range (so that the averaging addition does
not overflow), `trimmed_median_error` computes exactly the spec-side trimmed
median. -/
theorem tme_eq_spec {values : List Int} (h4 : 4 ≤ values.length)
    (hrange : ∀ x ∈ values, -32768 < x ∧ x ≤ 32767)
    (hmid : values.length * 3 / 4 % 2 = 0 →
      (keptSpec values).getD (values.length * 3 / 4 / 2) 0 +
        (keptSpec values).getD (values.length * 3 / 4 / 2 - 1) 0 ≤ 32767) :
    trimmed_median_error values = median_of_kept_spec values := by
  have hmap : values.map absI16 = values.map (fun x => |x|) :=
    map_absI16_eq_map_abs hrange
  simp only [trimmed_median_error, median_of_kept_spec, keptSpec, sortedAbsSpec, hmap]
  rw [if_neg (by omega)]
  by_cases hpar : values.length * 3 / 4 % 2 = 1
  · rw [if_pos hpar, if_pos hpar]
  · rw [if_neg hpar, if_neg hpar]
    have hpar0 : values.length * 3 / 4 % 2 = 0 := by omega
    have hnn : ∀ y ∈ (sortAsc (values.map fun x => |x|)).take (values.length * 3 / 4),
        0 ≤ y := @keptSpec_nonneg values
    have h1 : 0 ≤ ((sortAsc (values.map fun x => |x|)).take
        (values.length * 3 / 4)).getD (values.length * 3 / 4 / 2) 0 :=
      getD_nonneg_of_forall hnn _
    have h2 : 0 ≤ ((sortAsc (values.map fun x => |x|)).take
        (values.length * 3 / 4)).getD (values.length * 3 / 4 / 2 - 1) 0 :=
      getD_nonneg_of_forall hnn _
    have hsum := hmid hpar0
    simp only [keptSpec, sortedAbsSpec] at hsum
    rw [wrapI16_eq_self (by omega) (by omega)]

theorem keptSpec_length {values : List Int} (h4 : 4 ≤ values.length) :
    (keptSpec values).length = values.length * 3 / 4 := by
  rw [keptSpec, List.length_take, sortedAbsSpec, length_sortAsc, List.length_map]
  omega

theorem keptSpec_sorted (values : List Int) :
    List.Sorted (· ≤ ·) (keptSpec values) :=
  List.Pairwise.sublist (List.take_sublist _ _) (sortAsc_sorted _)

/-- The median the spec describes is bounded by some element of the input's
absolute values, and is non-negative. -/
theorem median_of_kept_spec_bounds {values : List Int} (h4 : 4 ≤ values.length) :
    0 ≤ median_of_kept_spec values ∧
      ∃ y ∈ values, median_of_kept_spec values ≤ |y| := by
  have hn3 : 3 ≤ values.length * 3 / 4 := by omega
  have hklen : (keptSpec values).length = values.length * 3 / 4 := keptSpec_length h4
  have hmem : ∀ i : Nat, i < values.length * 3 / 4 →
      ∃ y ∈ values, (keptSpec values).getD i 0 = |y| := by
    intro i hi
    have hm : (keptSpec values).getD i 0 ∈ keptSpec values := by
      rw [List.getD_eq_getElem _ 0 (by omega)]
      exact List.getElem_mem (by omega)
    exact mem_sortedAbsSpec (List.take_subset _ _ hm)
  rw [median_of_kept_spec]
  by_cases hpar : values.length * 3 / 4 % 2 = 1
  · rw [if_pos hpar]
    obtain ⟨y, hy, he⟩ := hmem (values.length * 3 / 4 / 2) (by omega)
    exact ⟨getD_nonneg_of_forall keptSpec_nonneg _, y, hy, le_of_eq he⟩
  · rw [if_neg hpar]
    have hml : (keptSpec values).getD (values.length * 3 / 4 / 2 - 1) 0 ≤
        (keptSpec values).getD (values.length * 3 / 4 / 2) 0 := by
      rw [List.getD_eq_getElem _ 0 (by omega), List.getD_eq_getElem _ 0 (by omega)]
      exact List.Sorted.rel_get_of_le (keptSpec_sorted values)
        (by simp only [Fin.le_def]; omega)
    have h1 : 0 ≤ (keptSpec values).getD (values.length * 3 / 4 / 2) 0 :=
      getD_nonneg_of_forall keptSpec_nonneg _
    have h2 : 0 ≤ (keptSpec values).getD (values.length * 3 / 4 / 2 - 1) 0 :=
      getD_nonneg_of_forall keptSpec_nonneg _
    refine ⟨Int.tdiv_nonneg (by omega) (by omega), ?_⟩
    obtain ⟨y, hy, he⟩ := hmem (values.length * 3 / 4 / 2) (by omega)
    refine ⟨y, hy, ?_⟩
    rw [← he]
    rw [Int.tdiv_eq_ediv (by omega) (by omega)]
    calc ((keptSpec values).getD (values.length * 3 / 4 / 2) 0 +
            (keptSpec values).getD (values.length * 3 / 4 / 2 - 1) 0) / 2
        ≤ ((keptSpec values).getD (values.length * 3 / 4 / 2) 0 +
            (keptSpec values).getD (values.length * 3 / 4 / 2) 0) / 2 :=
          Int.ediv_le_ediv (by omega) (by omega)
      _ = (keptSpec values).getD (values.length * 3 / 4 / 2) 0 := by omega

/- ### Claim C1 -/

/-- C1 (amended).  For every list of at least 4 samples in which no sample is
`i16::MIN` (whose absolute value overflows) and in which, when the kept-prefix
length is even, the two central kept absolute values sum within i16 range,
`trimmed_median_error` returns the median of the first `floor(len*3/4)`
elements of the ascending sort of the samples' absolute values — the central
element when that prefix length is odd, the truncating average of the two
central elements when it is even; and in particular
`trimmed_median_error [-10, 20, -5, 100] = 10`. -/
theorem trimmed_median_error_matches_spec :
    (∀ values : List Int, 4 ≤ values.length →
      (∀ x ∈ values, -32768 < x ∧ x ≤ 32767) →
      (values.length * 3 / 4 % 2 = 0 →
        (keptSpec values).getD (values.length * 3 / 4 / 2) 0 +
          (keptSpec values).getD (values.length * 3 / 4 / 2 - 1) 0 ≤ 32767) →
      trimmed_median_error values = median_of_kept_spec values) ∧
    trimmed_median_error [-10, 20, -5, 100] = 10 :=
  ⟨fun _ h4 hr hm => tme_eq_spec h4 hr hm, by decide⟩

/-- Witness for the amended C1 theorem at the spec's own example input. -/
theorem trimmed_median_error_matches_spec_witness :
    trimmed_median_error [-10, 20, -5, 100] = median_of_kept_spec [-10, 20, -5, 100] :=
  trimmed_median_error_matches_spec.1 [-10, 20, -5, 100] (by decide) (by decide)
    (by decide)

/-- C1 counterexample.  Eight samples of `30000` are valid i16 error samples;
the claim's median of the kept prefix `[30000, 30000, 30000, 30000, 30000,
30000]` is `30000`, but the code's i16 addition `30000 + 30000` wraps to
`-5536`, so `trimmed_median_error` returns `-2768`. -/
theorem trimmed_median_error_overflow_counterexample :
    trimmed_median_error [30000, 30000, 30000, 30000, 30000, 30000, 30000, 30000] = -2768 ∧
    median_of_kept_spec [30000, 30000, 30000, 30000, 30000, 30000, 30000, 30000] = 30000 ∧
    trimmed_median_error [30000, 30000, 30000, 30000, 30000, 30000, 30000, 30000] ≠
      median_of_kept_spec [30000, 30000, 30000, 30000, 30000, 30000, 30000, 30000] :=
  ⟨by decide, by decide, by decide⟩

/- ### Claim C5 -/

/-- C5.  Whenever `trimmed_median_error` is called with fewer than 4 samples it
returns the sentinel `i16::MAX = 32767` regardless of the sample values (the
early return happens before any computation on the samples); the return type
is a plain integer, not an error type. -/
theorem trimmed_median_error_sentinel (values : List Int)
    (h : values.length < 4) : trimmed_median_error values = 32767 := by
  rw [trimmed_median_error, if_pos h]

/-- Witness for C5 on a concrete 3-sample input. -/
theorem trimmed_median_error_sentinel_witness :
    trimmed_median_error [5, -3, 12] = 32767 :=
  trimmed_median_error_sentinel [5, -3, 12] (by decide)

/- ### Claim C9 -/

/-- C9 counterexample.  On the slice `[-32768, 0, 0, 0]` (length 4, so the
early return does not fire) the final slice contents are
`[-32768, 0, 0, 0]` — `(-32768 : i16).abs()` overflows back to `-32768` —
which is not the ascending sort `[0, 0, 0, 32768]` of the mathematical
absolute values. -/
theorem trimmed_median_error_final_counterexample :
    trimmed_median_error_final [-32768, 0, 0, 0] = [-32768, 0, 0, 0] ∧
    trimmed_median_error_final [-32768, 0, 0, 0] ≠ sortedAbsSpec [-32768, 0, 0, 0] :=
  ⟨by decide, by decide⟩

/-- C9 (amended).  The function's only effect is on its argument slice and is
fully determined: for length < 4 the slice is unchanged (the sentinel early
return precedes any mutation); for length ≥ 4 the final slice is the sorted
permutation of the elementwise i16 absolute values — equal to the ascending
sort of the mathematical absolute values whenever no element is `i16::MIN`. -/
theorem trimmed_median_error_final_state (values : List Int) :
    (values.length < 4 → trimmed_median_error_final values = values) ∧
    (4 ≤ values.length →
      List.Sorted (· ≤ ·) (trimmed_median_error_final values) ∧
      List.Perm (trimmed_median_error_final values) (values.map absI16)) ∧
    (4 ≤ values.length → (∀ x ∈ values, -32768 < x ∧ x ≤ 32767) →
      trimmed_median_error_final values = sortedAbsSpec values) := by
  refine ⟨fun h => by rw [trimmed_median_error_final, if_pos h],
    fun h4 => ?_, fun h4 hr => ?_⟩
  · rw [trimmed_median_error_final, if_neg (by omega)]
    exact ⟨sortAsc_sorted _, sortAsc_perm _⟩
  · rw [trimmed_median_error_final, if_neg (by omega), sortedAbsSpec,
      map_absI16_eq_map_abs hr]

/-- Witness for the amended C9 theorem: a sorted-absolute-values final state
on a length-4 slice, and an untouched slice on a length-2 slice. -/
theorem trimmed_median_error_final_state_witness :
    trimmed_median_error_final [-10, 20, -5, 100] = sortedAbsSpec [-10, 20, -5, 100] ∧
    trimmed_median_error_final [7, -2] = [7, -2] :=
  ⟨(trimmed_median_error_final_state [-10, 20, -5, 100]).2.2 (by decide) (by decide),
   (trimmed_median_error_final_state [7, -2]).1 (by decide)⟩

/- ### Claim C10 -/

/-- C10.  For every input of length ≥ 4 all of whose elements have absolute
value at most 16383, `trimmed_median_error` performs no i16 overflow — its
result coincides with the overflow-free spec-side computation
`median_of_kept_spec` — and the returned score is non-negative and at most the
largest absolute value of the input. -/
theorem trimmed_median_error_no_overflow (values : List Int)
    (h4 : 4 ≤ values.length) (hb : ∀ x ∈ values, |x| ≤ 16383) :
    0 ≤ trimmed_median_error values ∧
    (∃ y ∈ values, trimmed_median_error values ≤ |y|) ∧
    trimmed_median_error values = median_of_kept_spec values := by
  have hrange : ∀ x ∈ values, -32768 < x ∧ x ≤ 32767 := by
    intro x hx
    have := hb x hx
    rw [abs_le] at this
    omega
  have hkb : ∀ y ∈ keptSpec values, y ≤ 16383 := by
    intro y hy
    obtain ⟨x, hx, rfl⟩ := mem_sortedAbsSpec (List.take_subset _ _ hy)
    exact hb x hx
  have hmid : values.length * 3 / 4 % 2 = 0 →
      (keptSpec values).getD (values.length * 3 / 4 / 2) 0 +
        (keptSpec values).getD (values.length * 3 / 4 / 2 - 1) 0 ≤ 32767 := by
    intro _
    have u1 := getD_le_of_forall (by omega) hkb (values.length * 3 / 4 / 2)
    have u2 := getD_le_of_forall (by omega) hkb (values.length * 3 / 4 / 2 - 1)
    omega
  have heq := tme_eq_spec h4 hrange hmid
  have hbd := @median_of_kept_spec_bounds values h4
  rw [heq]
  exact ⟨hbd.1, hbd.2, rfl⟩

/-- Witness for C10 at a concrete in-range input. -/
theorem trimmed_median_error_no_overflow_witness :
    0 ≤ trimmed_median_error [-10, 20, -5, 100] ∧
    (∃ y ∈ [(-10 : Int), 20, -5, 100], trimmed_median_error [-10, 20, -5, 100] ≤ |y|) ∧
    trimmed_median_error [-10, 20, -5, 100] = median_of_kept_spec [-10, 20, -5, 100] :=
  trimmed_median_error_no_overflow [-10, 20, -5, 100] (by decide) (by decide)

/- ### Sliding RSSI window and median (server/src/bluetooth.rs) -/

/-- One push into a peer's sliding RSSI window, from `scan_devices`
(server/src/bluetooth.rs): if the deque already holds
`MAX_RSSI_QUEUE_SIZE = 5` samples the oldest (front) one is popped, then the
new sample is appended at the back. -/
def pushRssi (deque : List Int) (rssi : Int) : List Int :=
  let deque1 := if 5 ≤ deque.length then deque.drop 1 else deque
  deque1 ++ [rssi]

/-- `calculate_median` from server/src/bluetooth.rs lines 50-63: `none` on an
empty vector, otherwise the vector is sorted ascending and the middle element
(odd length) or the i16 average of the two middle elements (even length) is
returned. -/
def calculate_median (values : List Int) : Option Int :=
  if values.isEmpty then none
  else
    let sorted := sortAsc values
    let len := values.length
    if len % 2 = 0 then
      some (Int.tdiv (wrapI16 (sorted.getD (len / 2 - 1) 0 + sorted.getD (len / 2) 0)) 2)
    else
      some (sorted.getD (len / 2) 0)

theorem getD_bounds_of_forall {l : List Int} {A B : Int} (hA : A ≤ 0) (hB : 0 ≤ B)
    (h : ∀ y ∈ l, A ≤ y ∧ y ≤ B) (i : Nat) : A ≤ l.getD i 0 ∧ l.getD i 0 ≤ B := by
  by_cases hi : i < l.length
  · rw [List.getD_eq_getElem l 0 hi]
    exact h _ (List.getElem_mem hi)
  · rw [List.getD_eq_default l 0 (by omega)]
    exact ⟨hA, hB⟩

/-- Pushing 7 values into an initially empty window leaves exactly the last
five, in order. -/
theorem pushRssi_seven (a b c d e f g : Int) :
    List.foldl pushRssi [] [a, b, c, d, e, f, g] = [c, d, e, f, g] := rfl

/-- On a non-empty even-length vector of in-range RSSI samples,
`calculate_median` returns the truncating average of the two central elements
of the (unique) ascending sort. -/
theorem calculate_median_even {v s : List Int} (hne : v ≠ [])
    (heven : v.length % 2 = 0) (hs : List.Sorted (· ≤ ·) s) (hp : List.Perm s v)
    (hb : ∀ x ∈ v, -16384 ≤ x ∧ x ≤ 16383) :
    calculate_median v =
      some (Int.tdiv (s.getD (v.length / 2 - 1) 0 + s.getD (v.length / 2) 0) 2) := by
  have hsv : s = sortAsc v := sortAsc_unique hs hp
  have hbs : ∀ y ∈ s, -16384 ≤ y ∧ y ≤ 16383 := fun y hy => hb y (hp.mem_iff.mp hy)
  have h1 := getD_bounds_of_forall (by omega) (by omega) hbs (v.length / 2 - 1)
  have h2 := getD_bounds_of_forall (by omega) (by omega) hbs (v.length / 2)
  rw [calculate_median, if_neg (by simpa using hne), if_pos heven, ← hsv,
    wrapI16_eq_self (by omega) (by omega)]

/-- C6 counterexample.  The even-count median snapshot is not always the
truncating average of the two middle elements of the sorted copy: on a window
holding the representable i16 samples `[30000, 30000]` the code's i16 sum
`values[0] + values[1]` wraps to `-5536`, so `calculate_median` returns
`-2768` while the true truncating average of the two middle elements is
`30000`. -/
theorem calculate_median_overflow_counterexample :
    calculate_median [30000, 30000] = some (-2768) ∧
    Int.tdiv (30000 + 30000) 2 = 30000 ∧
    calculate_median [30000, 30000] ≠ some (Int.tdiv (30000 + 30000) 2) :=
  ⟨by decide, by decide, by decide⟩

/-- C6 (amended).  A sliding window never exceeds 5 samples (a push on a full
window first evicts the oldest); pushing 7 values into an empty window leaves
exactly the last five and the median snapshot is computed from those five
alone; the snapshot is "no data" on an empty window; and on a non-empty
window with an even number of samples all within `[-16384, 16383]` (so the
central i16 sum cannot overflow; every physical RSSI value qualifies) it is
the truncating average of the two central elements of the sorted copy. -/
theorem sliding_window_properties :
    (∀ (q : List Int) (x : Int), q.length ≤ 5 → (pushRssi q x).length ≤ 5) ∧
    (∀ a b c d e f g : Int,
      List.foldl pushRssi [] [a, b, c, d, e, f, g] = [c, d, e, f, g]) ∧
    (∀ a b c d e f g : Int,
      calculate_median (List.foldl pushRssi [] [a, b, c, d, e, f, g]) =
        calculate_median [c, d, e, f, g]) ∧
    calculate_median [] = none ∧
    (∀ v s : List Int, v ≠ [] → v.length % 2 = 0 →
      List.Sorted (· ≤ ·) s → List.Perm s v →
      (∀ x ∈ v, -16384 ≤ x ∧ x ≤ 16383) →
      calculate_median v =
        some (Int.tdiv (s.getD (v.length / 2 - 1) 0 + s.getD (v.length / 2) 0) 2)) := by
  refine ⟨?_, pushRssi_seven, ?_, rfl, ?_⟩
  · intro q x h
    unfold pushRssi
    by_cases h5 : 5 ≤ q.length
    · rw [if_pos h5]
      simp only [List.length_append, List.length_drop, List.length_cons,
        List.length_nil]
      omega
    · rw [if_neg h5]
      simp only [List.length_append, List.length_cons, List.length_nil]
      omega
  · intro a b c d e f g
    rw [pushRssi_seven]
  · intro v s hne heven hs hp hb
    exact calculate_median_even hne heven hs hp hb

/-- Witness for C6 at concrete windows. -/
theorem sliding_window_properties_witness :
    (pushRssi [1, 2, 3, 4, 5] 6).length ≤ 5 ∧
    List.foldl pushRssi [] [(10 : Int), 20, 30, 40, 50, 60, 70] =
      [30, 40, 50, 60, 70] ∧
    calculate_median [(1 : Int), 2, 3, 4] =
      some (Int.tdiv (([1, 2, 3, 4] : List Int).getD 1 0 +
        ([1, 2, 3, 4] : List Int).getD 2 0) 2) :=
  ⟨sliding_window_properties.1 [1, 2, 3, 4, 5] 6 (by decide),
   sliding_window_properties.2.1 10 20 30 40 50 60 70,
   sliding_window_properties.2.2.2.2 [1, 2, 3, 4] [1, 2, 3, 4] (by decide)
     (by decide) (by decide) (by decide) (by decide)⟩

/- ### Path-loss estimator -/

/-- The path-loss computation of `estimate_rssi`
(pallets/proof-of-location/src/util.rs lines 73-104; trust-score/src/score.rs
lines 116-129 fixes `reference_rssi = -60` and `path_loss_exponent = 30`), as
a function of the haversine distance `dist` in meters:
`if dist > 0 { ref - (exp/10) * 10 * log10(dist) } else { 0 }`.
The `f64` arithmetic and `log10` are modelled over the real numbers; the final
`as i16` truncation toward zero is monotone and maps `0` to `0` and exact
integer results to themselves, so it preserves every statement proved below. -/
noncomputable def estimate_rssi_real (reference_rssi : Int) (path_loss_exponent : Nat)
    (dist : ℝ) : ℝ :=
  if 0 < dist then
    (reference_rssi : ℝ) - ((path_loss_exponent : ℝ) / 10) * 10 * Real.logb 10 dist
  else 0

theorem logb_ten_thousandth : Real.logb 10 ((1 : ℝ) / 1000) = -3 := by
  rw [one_div, Real.logb_inv, show (1000 : ℝ) = 10 ^ (3 : ℕ) by norm_num,
    Real.logb_pow, Real.logb_self_eq_one (by norm_num)]
  norm_num

/-- C4 counterexample.  With the example constants, the estimate at distance 0
is 0 while the estimate at the positive distance 1/1000 m is +30, so the
estimate is not non-increasing on `0 ≤ d1 ≤ d2` once the distance-0 case is
included, contrary to the claim. -/
theorem estimate_rssi_monotone_counterexample :
    (0 : ℝ) ≤ 1 / 1000 ∧
    estimate_rssi_real (-60) 30 0 = 0 ∧
    estimate_rssi_real (-60) 30 (1 / 1000) = 30 ∧
    ¬ estimate_rssi_real (-60) 30 (1 / 1000) ≤ estimate_rssi_real (-60) 30 0 := by
  have h0 : estimate_rssi_real (-60) 30 0 = 0 := by
    rw [estimate_rssi_real, if_neg (lt_irrefl 0)]
  have h1 : estimate_rssi_real (-60) 30 (1 / 1000) = 30 := by
    rw [estimate_rssi_real, if_pos (by norm_num), logb_ten_thousandth]
    norm_num
  refine ⟨by norm_num, h0, h1, ?_⟩
  rw [h0, h1]
  norm_num

/-- C4 (amended).  For fixed constants the estimate is monotonically
non-increasing on strictly positive distances: `0 < d1 ≤ d2` implies
`estimate(d1) ≥ estimate(d2)`; at distance exactly 0 the estimator returns 0,
which estimates at small positive distances can exceed.  With
`referenceRssi = -60` and `pathLossExponent = 30`, distance 1 m gives exactly
-60 and distance 10 m exactly -90. -/
theorem estimate_rssi_antitone (reference_rssi : Int) (path_loss_exponent : Nat)
    (d1 d2 : ℝ) (h1 : 0 < d1) (h12 : d1 ≤ d2) :
    estimate_rssi_real reference_rssi path_loss_exponent d2 ≤
      estimate_rssi_real reference_rssi path_loss_exponent d1 ∧
    estimate_rssi_real (-60) 30 1 = -60 ∧
    estimate_rssi_real (-60) 30 10 = -90 := by
  refine ⟨?_, ?_, ?_⟩
  · rw [estimate_rssi_real, estimate_rssi_real, if_pos h1,
      if_pos (lt_of_lt_of_le h1 h12)]
    have hc : (0 : ℝ) ≤ ((path_loss_exponent : ℝ) / 10) * 10 := by positivity
    have hl : Real.logb 10 d1 ≤ Real.logb 10 d2 :=
      Real.logb_le_logb_of_le (by norm_num) h1 h12
    have := mul_le_mul_of_nonneg_left hl hc
    linarith
  · rw [estimate_rssi_real, if_pos one_pos, Real.logb_one]
    norm_num
  · rw [estimate_rssi_real, if_pos (by norm_num),
      Real.logb_self_eq_one (by norm_num)]
    norm_num

/-- Witness for the amended C4 theorem at distances 1 m and 10 m. -/
theorem estimate_rssi_antitone_witness :
    estimate_rssi_real (-60) 30 10 ≤ estimate_rssi_real (-60) 30 1 :=
  (estimate_rssi_antitone (-60) 30 1 10 one_pos (by norm_num)).1

/- ### Scanning engine: discovery-loop event handling -/

/-- The error with which `scan_devices` (server/src/bluetooth.rs lines
137-216) returns when one of the fallible per-peer operations inside its
`AdapterEvent::DeviceAdded` arm fails through the `?` operator. -/
inductive ScanError
  | DeviceLookupFailed
  | RssiReadFailed
deriving DecidableEq

/-- The discovery loop's mutable state: the set of peer addresses with a
spawned observation task (`device_tasks`), and the per-peer sliding RSSI
windows (`rssi_data`; the empty list stands for an absent map entry). -/
structure ScanState where
  deviceTasks : List (List Nat)
  rssiData : List Nat → List Int

/-- The `AdapterEvent::DeviceAdded(addr)` arm of the `scan_devices` loop.
The environment's responses are passed explicitly: `deviceLookup` is the
outcome of `adapter.device(addr)` (on which the code applies `?`),
`rssiRead` the outcome of `device.rssi().await` (`?` applied; on success it
yields an `Option` RSSI, defaulted to 0 by `unwrap_or(0)`), and `subscribeOk`
whether `device.events().await` inside the spawned observation task succeeds
(the task ignores a failure with `if let Ok`).  An `Except.error` result means
`scan_devices` itself returns with that error, terminating the discovery
loop; `Except.ok` is the state after the arm finishes normally. -/
def handleDeviceAdded (neighborAddresses : List (List Nat)) (s : ScanState)
    (addr : List Nat) (deviceLookup : Option Unit)
    (rssiRead : Option (Option Int)) (subscribeOk : Bool) :
    Except ScanError ScanState :=
  if addr ∈ neighborAddresses then
    if addr ∈ s.deviceTasks then .ok s
    else
      match deviceLookup with
      | none => .error .DeviceLookupFailed
      | some _ =>
        match rssiRead with
        | none => .error .RssiReadFailed
        | some r =>
          let rssi := r.getD 0
          let s1 : ScanState :=
            if rssi ≠ 0 then
              { s with rssiData := fun a =>
                  if a = addr then pushRssi (s.rssiData a) rssi else s.rssiData a }
            else s
          .ok { s1 with deviceTasks := addr :: s1.deviceTasks }
  else .ok s

/-- C2 counterexample.  A newly discovered neighbor peer whose current-RSSI
read fails makes the `DeviceAdded` arm return `Err` through `?`: the whole
`scan_devices` loop terminates with `RssiReadFailed` instead of merely
skipping the peer, contrary to the claim that such a failure never terminates
the discovery loop. -/
theorem handleDeviceAdded_rssi_failure_fatal :
    handleDeviceAdded [[1, 2, 3, 4, 5, 6]]
      ⟨[], fun _ => []⟩ [1, 2, 3, 4, 5, 6] (some ()) none true =
      Except.error ScanError.RssiReadFailed := by
  rfl

/-- C2 (amended).  A failure to subscribe to a discovered peer's events is
per-peer and non-fatal: the arm's outcome is independent of the subscription
result and, when the device handle and RSSI reads succeed, the arm always
finishes normally (`ok`).  But a failure to obtain the device handle or to
read the peer's current RSSI for a new neighbor peer propagates out of
`scan_devices` through `?` and terminates the discovery loop. -/
theorem handleDeviceAdded_failure_semantics :
    (∀ n s addr r b b', handleDeviceAdded n s addr (some ()) (some r) b =
      handleDeviceAdded n s addr (some ()) (some r) b') ∧
    (∀ n s addr r b, ∃ s', handleDeviceAdded n s addr (some ()) (some r) b =
      Except.ok s') ∧
    (∀ n s addr b, addr ∈ n → addr ∉ s.deviceTasks →
      handleDeviceAdded n s addr (some ()) none b =
        Except.error ScanError.RssiReadFailed) ∧
    (∀ n s addr r b, addr ∈ n → addr ∉ s.deviceTasks →
      handleDeviceAdded n s addr none r b =
        Except.error ScanError.DeviceLookupFailed) := by
  refine ⟨fun n s addr r b b' => rfl, ?_, ?_, ?_⟩
  · intro n s addr r b
    unfold handleDeviceAdded
    by_cases hn : addr ∈ n
    · rw [if_pos hn]
      by_cases ht : addr ∈ s.deviceTasks
      · rw [if_pos ht]; exact ⟨s, rfl⟩
      · rw [if_neg ht]; exact ⟨_, rfl⟩
    · rw [if_neg hn]; exact ⟨s, rfl⟩
  · intro n s addr b hn ht
    unfold handleDeviceAdded
    rw [if_pos hn, if_neg ht]
  · intro n s addr r b hn ht
    unfold handleDeviceAdded
    rw [if_pos hn, if_neg ht]

/-- Witness for the amended C2 theorem at a concrete discovery event. -/
theorem handleDeviceAdded_failure_semantics_witness :
    (∃ s', handleDeviceAdded [[1, 2, 3, 4, 5, 6]] ⟨[], fun _ => []⟩
      [1, 2, 3, 4, 5, 6] (some ()) (some (some (-40))) false = Except.ok s') ∧
    handleDeviceAdded [[1, 2, 3, 4, 5, 6]] ⟨[], fun _ => []⟩
      [1, 2, 3, 4, 5, 6] none (some (some (-40))) true =
      Except.error ScanError.DeviceLookupFailed :=
  ⟨handleDeviceAdded_failure_semantics.2.1 [[1, 2, 3, 4, 5, 6]]
      ⟨[], fun _ => []⟩ [1, 2, 3, 4, 5, 6] (some (-40)) false,
   handleDeviceAdded_failure_semantics.2.2.2 [[1, 2, 3, 4, 5, 6]]
      ⟨[], fun _ => []⟩ [1, 2, 3, 4, 5, 6] (some (some (-40))) true
      (by simp) (by simp)⟩

/- ### Neighbor set maintainer: NodeUpdated handling -/

/-- The fields of a `NodeUpdated` chain event as consumed by the listener in
server/src/neighbor.rs. -/
structure NodeUpdatedEvent where
  old_address : List Nat
  new_address : List Nat
  old_latitude : Int
  old_longitude : Int
  new_latitude : Int
  new_longitude : Int

/-- The `NodeUpdated` branch of `start_neighbor_event_listener`
(server/src/neighbor.rs lines 288-333) together with its helpers
`handle_node_in_range` (lines 128-161) and `handle_node_out_of_range` (lines
164-188).  The haversine `f64` distance from the local node
(`calculate_distance_from_us`) is abstracted as the parameter `dist` on the
new micro-degree coordinates, with rationals standing in for the `f64`
comparison against `max_distance`; the modelled behavior holds for every
distance function.  Events whose new address equals this node's own address
are skipped; if the address changed, the entry keyed by the old address is
removed first; then the distance to the new coordinates selects
`handle_node_in_range` (which recomputes the same distance and inserts the
new address when within range) or `handle_node_out_of_range` (which
recomputes it and removes the new address when out of range). -/
def handleNodeUpdated (dist : Int → Int → ℚ) (max_distance : ℚ)
    (ourAddress : List Nat) (neighbors : Finset (List Nat))
    (ev : NodeUpdatedEvent) : Finset (List Nat) :=
  if ev.new_address = ourAddress then neighbors
  else
    let neighbors1 :=
      if ev.old_address ≠ ev.new_address then neighbors.erase ev.old_address
      else neighbors
    if dist ev.new_latitude ev.new_longitude ≤ max_distance then
      if dist ev.new_latitude ev.new_longitude ≤ max_distance then
        insert ev.new_address neighbors1
      else neighbors1
    else
      if max_distance < dist ev.new_latitude ev.new_longitude then
        neighbors1.erase ev.new_address
      else neighbors1

/-- C7.  On a node-updated notification for a non-self peer: if the new
coordinates are within `max_distance` the new address is in the resulting
set, otherwise the new address is absent (so an update with unchanged address
whose new coordinates exceed `max_distance` removes the peer); and whenever
the address changed, the old address is absent from the resulting set (so an
address-changing update still in range yields a set containing the new
address and not the old one). -/
theorem nodeUpdated_membership (dist : Int → Int → ℚ) (max_distance : ℚ)
    (ourAddress : List Nat) (neighbors : Finset (List Nat))
    (ev : NodeUpdatedEvent) (hself : ev.new_address ≠ ourAddress) :
    (dist ev.new_latitude ev.new_longitude ≤ max_distance →
      ev.new_address ∈ handleNodeUpdated dist max_distance ourAddress neighbors ev) ∧
    (¬ dist ev.new_latitude ev.new_longitude ≤ max_distance →
      ev.new_address ∉ handleNodeUpdated dist max_distance ourAddress neighbors ev) ∧
    (ev.old_address ≠ ev.new_address →
      ev.old_address ∉ handleNodeUpdated dist max_distance ourAddress neighbors ev) := by
  unfold handleNodeUpdated
  rw [if_neg hself]
  by_cases hd : dist ev.new_latitude ev.new_longitude ≤ max_distance
  · rw [if_pos hd, if_pos hd]
    refine ⟨fun _ => Finset.mem_insert_self _ _, fun hnd => absurd hd hnd, ?_⟩
    intro hch hmem
    rcases Finset.mem_insert.mp hmem with h | h
    · exact hch h
    · rw [if_pos hch] at h
      exact Finset.not_mem_erase _ _ h
  · rw [if_neg hd, if_pos (not_le.mp hd)]
    refine ⟨fun hd' => absurd hd' hd, fun _ => Finset.not_mem_erase _ _, ?_⟩
    intro hch hmem
    have h1 := (Finset.mem_erase.mp hmem).2
    rw [if_pos hch] at h1
    exact Finset.not_mem_erase _ _ h1

/-- Witness for C7: an address-changing in-range update on a concrete
neighbor set ends with the new address present and the old address absent. -/
theorem nodeUpdated_membership_witness :
    [2, 2, 2, 2, 2, 2] ∈ handleNodeUpdated (fun _ _ => 5) 10 [9, 9, 9, 9, 9, 9]
      {[1, 1, 1, 1, 1, 1]} ⟨[1, 1, 1, 1, 1, 1], [2, 2, 2, 2, 2, 2], 0, 0, 0, 0⟩ ∧
    [1, 1, 1, 1, 1, 1] ∉ handleNodeUpdated (fun _ _ => 5) 10 [9, 9, 9, 9, 9, 9]
      {[1, 1, 1, 1, 1, 1]} ⟨[1, 1, 1, 1, 1, 1], [2, 2, 2, 2, 2, 2], 0, 0, 0, 0⟩ :=
  have h := nodeUpdated_membership (fun _ _ => 5) 10 [9, 9, 9, 9, 9, 9]
    {[1, 1, 1, 1, 1, 1]} ⟨[1, 1, 1, 1, 1, 1], [2, 2, 2, 2, 2, 2], 0, 0, 0, 0⟩
    (by decide)
  ⟨h.1 (by norm_num), h.2.2 (by decide)⟩

/- ### Registry pallet: node registration storage -/

/-- `LocationData` as constructed by the dispatchables in
pallets/proof-of-location/src/pallet_calls.rs: the node's 6-byte radio
address and its fixed-point micro-degree coordinates. -/
structure LocationData where
  address : List Nat
  latitude : Int
  longitude : Int

/-- The pallet storage touched by the registration dispatchables: the two
maps `AccountData : AccountId -> LocationData` and
`AddressRegistrationData : [u8; 6] -> AccountId` (and `ServerConfig`, cleared
on unregistration).  Account ids are modelled as naturals, addresses as byte
lists, absent storage entries as `none`. -/
structure PalletState where
  accountData : Nat → Option LocationData
  addressRegistrationData : List Nat → Option Nat
  serverConfig : Nat → Option (List Nat)

/-- The rejection reasons of the modelled dispatchables
(`Error` enum of the pallet). -/
inductive PalletError
  | BluetoothAddressAlreadyTaken
  | AccountAlreadyRegistered
  | AccountNotRegistered
deriving DecidableEq

/-- `register_node` (pallet_calls.rs lines 46-88).  A dispatch error leaves
storage untouched, so the result is the (possibly unchanged) state together
with the optional rejection. -/
def register_node (s : PalletState) (who : Nat) (address : List Nat)
    (latitude longitude : Int) : PalletState × Option PalletError :=
  if (s.addressRegistrationData address).isSome then
    (s, some .BluetoothAddressAlreadyTaken)
  else if (s.accountData who).isSome then
    (s, some .AccountAlreadyRegistered)
  else
    ({ s with
        accountData := fun a =>
          if a = who then some ⟨address, latitude, longitude⟩ else s.accountData a,
        addressRegistrationData := fun ad =>
          if ad = address then some who else s.addressRegistrationData ad },
      none)

/-- `unregister_node` (pallet_calls.rs lines 99-130): requires the caller to
be registered, then removes its `AccountData`, the `AddressRegistrationData`
entry of its stored address, and its `ServerConfig`. -/
def unregister_node (s : PalletState) (who : Nat) :
    PalletState × Option PalletError :=
  match s.accountData who with
  | none => (s, some .AccountNotRegistered)
  | some ld =>
    ({ accountData := fun a => if a = who then none else s.accountData a,
       addressRegistrationData := fun ad =>
         if ad = ld.address then none else s.addressRegistrationData ad,
       serverConfig := fun a => if a = who then none else s.serverConfig a },
      none)

/-- `update_node_info` (pallet_calls.rs lines 144-202): requires the caller
to be registered; when the address changes, rejects if the new address is
taken, otherwise removes the old address mapping and inserts the new one;
in every successful case overwrites the caller's `AccountData` with the new
address and coordinates. -/
def update_node_info (s : PalletState) (who : Nat) (address : List Nat)
    (latitude longitude : Int) : PalletState × Option PalletError :=
  match s.accountData who with
  | none => (s, some .AccountNotRegistered)
  | some old_location_data =>
    if old_location_data.address ≠ address then
      if (s.addressRegistrationData address).isSome then
        (s, some .BluetoothAddressAlreadyTaken)
      else
        ({ s with
            accountData := fun a =>
              if a = who then some ⟨address, latitude, longitude⟩
              else s.accountData a,
            addressRegistrationData := fun ad =>
              if ad = address then some who
              else if ad = old_location_data.address then none
              else s.addressRegistrationData ad },
          none)
    else
      ({ s with
          accountData := fun a =>
            if a = who then some ⟨address, latitude, longitude⟩
            else s.accountData a },
        none)

/-- The bidirectional-uniqueness invariant of the registry: every registered
address maps to an account whose stored location data carries that same
address, and every registered account's stored address maps back to that
account.  Together these make the two maps mutually inverse. -/
def RegistryInv (s : PalletState) : Prop :=
  (∀ ad acc, s.addressRegistrationData ad = some acc →
    ∃ ld, s.accountData acc = some ld ∧ ld.address = ad) ∧
  (∀ acc ld, s.accountData acc = some ld →
    s.addressRegistrationData ld.address = some acc)

theorem registryInv_register {s : PalletState} (hinv : RegistryInv s)
    (who : Nat) (address : List Nat) (latitude longitude : Int) :
    RegistryInv (register_node s who address latitude longitude).1 := by
  obtain ⟨h1, h2⟩ := hinv
  unfold register_node
  by_cases hta : (s.addressRegistrationData address).isSome
  · rw [if_pos hta]
    exact ⟨h1, h2⟩
  · rw [if_neg hta]
    by_cases hacc : (s.accountData who).isSome
    · rw [if_pos hacc]
      exact ⟨h1, h2⟩
    · rw [if_neg hacc]
      constructor
      · intro ad acc hmap
        simp only at hmap
        by_cases had : ad = address
        · subst had
          rw [if_pos rfl] at hmap
          injection hmap with hacc'
          subst hacc'
          exact ⟨⟨ad, latitude, longitude⟩, by simp, rfl⟩
        · rw [if_neg had] at hmap
          obtain ⟨ld, hld, hlda⟩ := h1 ad acc hmap
          refine ⟨ld, ?_, hlda⟩
          have hne : acc ≠ who := by
            intro h
            subst h
            rw [hld] at hacc
            exact hacc rfl
          simpa [if_neg hne] using hld
      · intro acc ld hmap
        simp only at hmap ⊢
        by_cases hwho : acc = who
        · subst hwho
          rw [if_pos rfl] at hmap
          injection hmap with hld
          subst hld
          simp
        · rw [if_neg hwho] at hmap
          have := h2 acc ld hmap
          have hne : ld.address ≠ address := by
            intro h
            rw [h] at this
            rw [this] at hta
            exact hta rfl
          rw [if_neg hne]
          exact this

theorem registryInv_unregister {s : PalletState} (hinv : RegistryInv s)
    (who : Nat) : RegistryInv (unregister_node s who).1 := by
  obtain ⟨h1, h2⟩ := hinv
  unfold unregister_node
  cases hacc : s.accountData who with
  | none => exact ⟨h1, h2⟩
  | some ld0 =>
    constructor
    · intro ad acc hmap
      simp only at hmap
      by_cases had : ad = ld0.address
      · rw [if_pos had] at hmap
        exact absurd hmap (by simp)
      · rw [if_neg had] at hmap
        obtain ⟨ld, hld, hlda⟩ := h1 ad acc hmap
        have hne : acc ≠ who := by
          intro h
          subst h
          rw [hacc] at hld
          injection hld with h
          subst h
          exact had hlda.symm
        refine ⟨ld, ?_, hlda⟩
        simpa [if_neg hne] using hld
    · intro acc ld hmap
      simp only at hmap ⊢
      by_cases hwho : acc = who
      · subst hwho
        rw [if_pos rfl] at hmap
        exact absurd hmap (by simp)
      · rw [if_neg hwho] at hmap
        have hreg := h2 acc ld hmap
        have hne : ld.address ≠ ld0.address := by
          intro h
          have hreg0 := h2 who ld0 hacc
          rw [h, hreg0] at hreg
          injection hreg with h'
          exact hwho h'.symm
        rw [if_neg hne]
        exact hreg

theorem registryInv_update {s : PalletState} (hinv : RegistryInv s)
    (who : Nat) (address : List Nat) (latitude longitude : Int) :
    RegistryInv (update_node_info s who address latitude longitude).1 := by
  obtain ⟨h1, h2⟩ := hinv
  unfold update_node_info
  cases hacc : s.accountData who with
  | none => exact ⟨h1, h2⟩
  | some old =>
    dsimp only
    by_cases hch : old.address ≠ address
    · rw [if_pos hch]
      by_cases hta : (s.addressRegistrationData address).isSome
      · rw [if_pos hta]
        exact ⟨h1, h2⟩
      · rw [if_neg hta]
        constructor
        · intro ad acc hmap
          simp only at hmap
          by_cases had : ad = address
          · subst had
            rw [if_pos rfl] at hmap
            injection hmap with h
            subst h
            exact ⟨⟨ad, latitude, longitude⟩, by simp, rfl⟩
          · rw [if_neg had] at hmap
            by_cases hold : ad = old.address
            · rw [if_pos hold] at hmap
              exact absurd hmap (by simp)
            · rw [if_neg hold] at hmap
              obtain ⟨ld, hld, hlda⟩ := h1 ad acc hmap
              have hne : acc ≠ who := by
                intro h
                subst h
                rw [hacc] at hld
                injection hld with h
                subst h
                exact hold hlda.symm
              refine ⟨ld, ?_, hlda⟩
              simpa [if_neg hne] using hld
        · intro acc ld hmap
          simp only at hmap ⊢
          by_cases hwho : acc = who
          · subst hwho
            rw [if_pos rfl] at hmap
            injection hmap with h
            subst h
            simp
          · rw [if_neg hwho] at hmap
            have hreg := h2 acc ld hmap
            have hne1 : ld.address ≠ address := by
              intro h
              rw [h] at hreg
              rw [hreg] at hta
              exact hta rfl
            have hne2 : ld.address ≠ old.address := by
              intro h
              have hreg0 := h2 who old hacc
              rw [h, hreg0] at hreg
              injection hreg with h'
              exact hwho h'.symm
            rw [if_neg hne1, if_neg hne2]
            exact hreg
    · rw [if_neg hch]
      push_neg at hch
      constructor
      · intro ad acc hmap
        simp only at hmap
        obtain ⟨ld, hld, hlda⟩ := h1 ad acc hmap
        by_cases hwho : acc = who
        · subst hwho
          rw [hacc] at hld
          injection hld with h
          subst h
          refine ⟨⟨address, latitude, longitude⟩, by simp, ?_⟩
          rw [← hch]
          exact hlda
        · refine ⟨ld, ?_, hlda⟩
          simpa [if_neg hwho] using hld
      · intro acc ld hmap
        simp only at hmap
        by_cases hwho : acc = who
        · subst hwho
          rw [if_pos rfl] at hmap
          injection hmap with h
          subst h
          have := h2 acc old hacc
          simpa [hch] using this
        · rw [if_neg hwho] at hmap
          exact h2 acc ld hmap

/-- C8.  After every dispatch of `register_node`, `update_node_info` or
`unregister_node` — successful or rejected — the two registry maps remain
mutually inverse (`RegistryInv`); moreover a `register_node`, or an
address-changing `update_node_info`, targeting an address that is already
registered is rejected with `BluetoothAddressAlreadyTaken` and returns the
state unchanged. -/
theorem registry_dispatch_invariant :
    (∀ (s : PalletState) (who : Nat) (address : List Nat) (lat lon : Int),
      RegistryInv s → RegistryInv (register_node s who address lat lon).1) ∧
    (∀ (s : PalletState) (who : Nat) (address : List Nat) (lat lon : Int),
      RegistryInv s → RegistryInv (update_node_info s who address lat lon).1) ∧
    (∀ (s : PalletState) (who : Nat),
      RegistryInv s → RegistryInv (unregister_node s who).1) ∧
    (∀ (s : PalletState) (who : Nat) (address : List Nat) (lat lon : Int),
      (s.addressRegistrationData address).isSome →
      register_node s who address lat lon =
        (s, some PalletError.BluetoothAddressAlreadyTaken)) ∧
    (∀ (s : PalletState) (who : Nat) (address : List Nat) (lat lon : Int)
      (old : LocationData), s.accountData who = some old →
      old.address ≠ address → (s.addressRegistrationData address).isSome →
      update_node_info s who address lat lon =
        (s, some PalletError.BluetoothAddressAlreadyTaken)) := by
  refine ⟨fun s who address lat lon hinv => registryInv_register hinv who address lat lon,
    fun s who address lat lon hinv => registryInv_update hinv who address lat lon,
    fun s who hinv => registryInv_unregister hinv who, ?_, ?_⟩
  · intro s who address lat lon hta
    unfold register_node
    rw [if_pos hta]
  · intro s who address lat lon old hacc hch hta
    unfold update_node_info
    rw [hacc]
    dsimp only
    rw [if_pos hch, if_pos hta]

/-- Witness for C8: starting from the empty registry, registering a node
preserves the invariant, and a second registration targeting the already
taken address is rejected and leaves the state unchanged. -/
theorem registry_dispatch_invariant_witness :
    RegistryInv (register_node ⟨fun _ => none, fun _ => none, fun _ => none⟩
      1 [1, 2, 3, 4, 5, 6] 10 20).1 ∧
    register_node (register_node ⟨fun _ => none, fun _ => none, fun _ => none⟩
        1 [1, 2, 3, 4, 5, 6] 10 20).1 2 [1, 2, 3, 4, 5, 6] 0 0 =
      ((register_node ⟨fun _ => none, fun _ => none, fun _ => none⟩
          1 [1, 2, 3, 4, 5, 6] 10 20).1,
        some PalletError.BluetoothAddressAlreadyTaken) :=
  have hinv0 : RegistryInv ⟨fun _ => none, fun _ => none, fun _ => none⟩ :=
    ⟨fun _ _ h => by simp at h, fun _ _ h => by simp at h⟩
  ⟨registry_dispatch_invariant.1 _ 1 [1, 2, 3, 4, 5, 6] 10 20 hinv0,
   registry_dispatch_invariant.2.2.2.1 _ 2 [1, 2, 3, 4, 5, 6] 0 0 rfl⟩

/- ### SCALE wire codec: sensing server encoder vs offchain worker decoder -/

/-- Little-endian byte pair of an i16 value (SCALE fixed-width encoding),
via the two's-complement representative in `[0, 65536)`. -/
def i16ToLeBytes (r : Int) : List Nat :=
  [(r % 65536).toNat % 256, (r % 65536).toNat / 256]

/-- Decode a little-endian i16 from two bytes. -/
def i16FromLeBytes (b0 b1 : Nat) : Int :=
  let u := b0 + 256 * b1
  if u < 32768 then (u : Int) else (u : Int) - 65536

/-- SCALE compact (`Compact<u32>`) encoding of a length `n < 2^30`
(single-byte, two-byte and four-byte modes; the big-integer mode for larger
values does not arise for the lengths of this protocol). -/
def compactEncode (n : Nat) : List Nat :=
  if n < 64 then [n * 4]
  else if n < 16384 then [(n * 4 + 1) % 256, (n * 4 + 1) / 256]
  else [(n * 4 + 2) % 256, (n * 4 + 2) / 256 % 256,
    (n * 4 + 2) / 65536 % 256, (n * 4 + 2) / 16777216 % 256]

/-- SCALE compact decoding; yields the value and the remaining bytes. -/
def compactDecode : List Nat → Option (Nat × List Nat)
  | [] => none
  | b :: rest =>
    if b % 4 = 0 then some (b / 4, rest)
    else if b % 4 = 1 then
      match rest with
      | b1 :: rest1 => some ((b + 256 * b1) / 4, rest1)
      | [] => none
    else if b % 4 = 2 then
      match rest with
      | b1 :: b2 :: b3 :: rest3 =>
        some ((b + 256 * b1 + 65536 * b2 + 16777216 * b3) / 4, rest3)
      | _ => none
    else none

/-- `DeviceRssi` of the sensing server (server/src/main.rs lines 17-22):
note the `name: Vec<u8>` field between the address and the RSSI value. -/
structure ServerDeviceRssi where
  address : List Nat
  name : List Nat
  rssi : Int

/-- SCALE encoding of the server's `DeviceRssi`: 6 raw address bytes, the
compact-length-prefixed name bytes, then the 2 little-endian RSSI bytes. -/
def encodeServerDeviceRssi (d : ServerDeviceRssi) : List Nat :=
  d.address ++ compactEncode d.name.length ++ d.name ++ i16ToLeBytes d.rssi

/-- SCALE encoding of the server's `RssiResponse` (server/src/main.rs lines
24-27) as produced by `response.encode()` in the `/rssi` handler: a compact
device count followed by each device's encoding. -/
def encodeServerRssiResponse (devices : List ServerDeviceRssi) : List Nat :=
  compactEncode devices.length ++ (devices.map encodeServerDeviceRssi).flatten

/-- `DeviceRssi` of the pallet (pallets/proof-of-location/src/util.rs lines
8-12) and of the scanning engine (server/src/bluetooth.rs lines 18-22):
address and RSSI only — no name field. -/
structure DeviceRssi where
  address : List Nat
  rssi : Int
deriving DecidableEq

/-- SCALE encoding of the pallet / scanning-engine `DeviceRssi`. -/
def encodeDeviceRssi (d : DeviceRssi) : List Nat :=
  d.address ++ i16ToLeBytes d.rssi

/-- SCALE encoding of the pallet / scanning-engine `RssiResponse` — the
payload `current_rssi` (server/src/bluetooth.rs lines 256-276) produces. -/
def encodeRssiResponse (devices : List DeviceRssi) : List Nat :=
  compactEncode devices.length ++ (devices.map encodeDeviceRssi).flatten

/-- SCALE decoding of one pallet `DeviceRssi`: 6 address bytes then 2
little-endian RSSI bytes. -/
def decodeDeviceRssi (bytes : List Nat) : Option (DeviceRssi × List Nat) :=
  if 8 ≤ bytes.length then
    some (⟨bytes.take 6, i16FromLeBytes (bytes.getD 6 0) (bytes.getD 7 0)⟩,
      bytes.drop 8)
  else none

/-- SCALE decoding of `n` consecutive pallet `DeviceRssi` records. -/
def decodeDeviceList : Nat → List Nat → Option (List DeviceRssi × List Nat)
  | 0, bytes => some ([], bytes)
  | n + 1, bytes =>
    match decodeDeviceRssi bytes with
    | none => none
    | some (d, rest) =>
      match decodeDeviceList n rest with
      | none => none
      | some (ds, rest1) => some (d :: ds, rest1)

/-- `RssiResponse::decode` as performed by `fetch_rssi_from_server`
(pallets/proof-of-location/src/offchain_worker.rs lines 217-225): a compact
device count, then that many `DeviceRssi` records; SCALE decoding does not
require the input to be fully consumed. -/
def decodeRssiResponse (bytes : List Nat) : Option (List DeviceRssi) :=
  match compactDecode bytes with
  | none => none
  | some (n, rest) =>
    match decodeDeviceList n rest with
    | none => none
    | some (ds, _) => some ds

/-- C3.  The sensing server's `/rssi` encoder emits a `name: Vec<u8>` field
between each device's address and RSSI value, which the offchain worker's
`RssiResponse` decoder does not expect: on the payload for one device with
address `[1,2,3,4,5,6]`, empty name and RSSI `-50`, the decoder consumes the
name-length byte and the low RSSI byte as the two RSSI bytes and returns
`-12800` instead of `-50` — the round trip does not preserve RSSI values.
The pallet / scanning-engine encoder, which matches the spec's wire format
(no name field), round-trips the same device exactly. -/
theorem server_encoder_pallet_decoder_mismatch :
    encodeServerRssiResponse [⟨[1, 2, 3, 4, 5, 6], [], -50⟩] =
      [4, 1, 2, 3, 4, 5, 6, 0, 206, 255] ∧
    decodeRssiResponse (encodeServerRssiResponse [⟨[1, 2, 3, 4, 5, 6], [], -50⟩]) =
      some [⟨[1, 2, 3, 4, 5, 6], -12800⟩] ∧
    decodeRssiResponse (encodeRssiResponse [⟨[1, 2, 3, 4, 5, 6], -50⟩]) =
      some [⟨[1, 2, 3, 4, 5, 6], -50⟩] ∧
    (-12800 : Int) ≠ -50 :=
  ⟨by decide, by decide, by decide, by decide⟩
